import Mathlib

/-!
Verification of the request-handling pipeline of the Whisper transcription
API (`src/main.py`).  The model below is a shallow embedding: pure pieces of
the handler (option building, filename splitting) become Lean functions, the
effectful handler body becomes a trace of events plus an HTTP response, and
the `with NamedTemporaryFile` context manager becomes a combinator that
appends the cleanup event after the body's events on every outcome, exactly
as CPython's `with` statement does.
-/

namespace WhisperApi

/-- Attention implementation chosen at startup (`main.py` line 35). -/
inductive AttnImplementation where
  | flash_attention_2
  | sdpa
deriving DecidableEq

/-- The constructed recognition engine (`pipeline(...)`, `main.py` lines 30-36). -/
structure WhisperPipeline where
  task : String
  model : String
  attn : AttnImplementation
deriving DecidableEq

/-- Startup construction of the pipeline: task and checkpoint are fixed, the
attention implementation is `flash_attention_2` when the capability probe
`is_flash_attn_2_available()` answers true and `sdpa` otherwise. -/
def buildPipeline (flashAvailable : Bool) : WhisperPipeline :=
  { task := "automatic-speech-recognition"
    model := "openai/whisper-large-v3"
    attn := if flashAvailable then AttnImplementation.flash_attention_2
            else AttnImplementation.sdpa }

/-- Events of the process lifetime (`lifespan`, `main.py` lines 27-42). -/
inductive LifeEv where
  | constructEngine (p : WhisperPipeline)
  | serve
  | releaseEngine
deriving DecidableEq

/-- The lifespan context manager: construct the engine, yield to serving,
then null the engine reference. -/
def lifespanTrace (flashAvailable : Bool) : List LifeEv :=
  [LifeEv.constructEngine (buildPipeline flashAvailable), LifeEv.serve,
   LifeEv.releaseEngine]

/-- The app's `whisper_pipeline` attribute while the service is accepting
requests (set before the yield). -/
def pipelineWhileServing (flashAvailable : Bool) : Option WhisperPipeline :=
  some (buildPipeline flashAvailable)

/-- The app's `whisper_pipeline` attribute after the lifespan exits
(`app.whisper_pipeline = None`, `main.py` line 42). -/
def pipelineAfterShutdown (_flashAvailable : Bool) : Option WhisperPipeline :=
  none

/-- Recognizes engine-construction events. -/
def LifeEv.isConstruct : LifeEv → Bool
  | LifeEv.constructEngine _ => true
  | _ => false

/-- One timing segment of the engine output (opaque to this layer). -/
structure Segment where
  seg_text : String
  seg_start : Int
  seg_stop : Int
deriving DecidableEq

/-- Output of the engine: text plus optional timing chunks, passed through
unmodified by the handler (`return outputs`, `main.py` line 126). -/
structure TranscriptionResult where
  text : String
  chunks : Option (List Segment)
deriving DecidableEq

/-- The `generate_kwargs` dictionary attached when language is not "auto"
(`main.py` lines 106-109). -/
structure GenerateKwargs where
  task : String
  language : String
deriving DecidableEq

/-- The `extra_args` dictionary passed to the pipeline call
(`main.py` lines 100-109). -/
structure InferenceOptions where
  chunk_length_s : Nat
  batch_size : Nat
  return_timestamps : Bool
  generate_kwargs : Option GenerateKwargs
deriving DecidableEq

/-- Python's `str.lower()` on the language code: lowercase each character
(ASCII suffices here, since validated codes match `[A-Za-z]{2}` or "auto"). -/
def pyLower (s : String) : String :=
  String.mk (s.data.map Char.toLower)

/-- Builds `extra_args` exactly as `main.py` lines 100-109: fixed chunk
length 30 and batch size 24, the request's timestamp flag, and — only when
the language differs from "auto" — a `generate_kwargs` directive with task
"transcribe" and the lowercased language wrapped in the special tokens. -/
def buildExtraArgs (language : String) (timestamp : Bool) : InferenceOptions :=
  let base : InferenceOptions :=
    { chunk_length_s := 30
      batch_size := 24
      return_timestamps := timestamp
      generate_kwargs := none }
  if language ≠ "auto" then
    { base with
      generate_kwargs := some ({ task := "transcribe", language := "<|" ++ pyLower language ++ "|>" } : GenerateKwargs) }
  else base

/-- Python's `str.split('.')` on a list of characters: splits at every dot,
keeping empty pieces, never returning an empty list. -/
def pySplitDot : List Char → List (List Char)
  | [] => [[]]
  | c :: cs =>
    if c = '.' then [] :: pySplitDot cs
    else
      match pySplitDot cs with
      | [] => [[c]]
      | h :: t => (c :: h) :: t

/-- Python's `[-1]` indexing on a nonempty list of pieces (total here; the
empty case is unreachable since `pySplitDot` never returns `[]`). -/
def pyLast : List (List Char) → List Char
  | [] => []
  | [x] => x
  | _ :: x :: xs => pyLast (x :: xs)

/-- The piece `file.filename.split('.')[-1]` of `main.py` line 112. -/
def lastSeg (l : List Char) : List Char :=
  pyLast (pySplitDot l)

/-- Message CPython raises when `.split` is called on a missing filename. -/
def pyNoneSplitMsg : String :=
  "'NoneType' object has no attribute 'split'"

/-- HTTP responses the service produces: a success body (the engine output
passed through), the `JSONResponse({"error": msg}, 500)` of the except
branch, or FastAPI's validation rejection. -/
inductive HttpResponse where
  | success (body : TranscriptionResult)
  | error (status : Nat) (message : String)
  | validationError (status : Nat)
deriving DecidableEq

/-- Observable events of one request's handling. -/
inductive Ev where
  | stage (suffix : List Char)
  | readUpload
  | writeTemp
  | callEngine (opts : InferenceOptions)
  | cleanup
  | respond (r : HttpResponse)
deriving DecidableEq

/-- The statements inside the `with` block (`main.py` lines 113-116): read
the upload, write it to the staged file, call the engine.  Each step may
raise; a raised exception short-circuits the rest of the body. -/
def bodySteps (readRes writeRes : Except String Unit)
    (engine : InferenceOptions → Except String TranscriptionResult)
    (opts : InferenceOptions) : List Ev × Except String TranscriptionResult :=
  match readRes with
  | Except.error m => ([Ev.readUpload], Except.error m)
  | Except.ok _ =>
    match writeRes with
    | Except.error m => ([Ev.readUpload, Ev.writeTemp], Except.error m)
    | Except.ok _ =>
      match engine opts with
      | Except.error m =>
        ([Ev.readUpload, Ev.writeTemp, Ev.callEngine opts], Except.error m)
      | Except.ok r =>
        ([Ev.readUpload, Ev.writeTemp, Ev.callEngine opts], Except.ok r)

/-- CPython semantics of `with NamedTemporaryFile(suffix=...) as tmp`:
the file is created on entry and deleted on exit, whether the body completed
or raised; the body's outcome is then propagated. -/
def withNamedTemporaryFile (suffix : List Char)
    (body : List Ev × Except String TranscriptionResult) :
    List Ev × Except String TranscriptionResult :=
  (Ev.stage suffix :: body.1 ++ [Ev.cleanup], body.2)

/-- The `try`/`except` body of the handler (`main.py` lines 111-130) for an
already validated request.  `filename` is `None` or the upload's filename;
on `None` the suffix f-string raises before any staging, and the except
branch turns the exception into a 500 response.  The suffix is a dot
followed by `filename.split('.')[-1]`. -/
def transcribeHandler (filename : Option (List Char)) (language : String)
    (timestamp : Bool) (readRes writeRes : Except String Unit)
    (engine : InferenceOptions → Except String TranscriptionResult) :
    List Ev :=
  let extra_args := buildExtraArgs language timestamp
  match filename with
  | none => [Ev.respond (HttpResponse.error 500 pyNoneSplitMsg)]
  | some fname =>
    let staged :=
      withNamedTemporaryFile ('.' :: lastSeg fname)
        (bodySteps readRes writeRes engine extra_args)
    match staged.2 with
    | Except.ok r => staged.1 ++ [Ev.respond (HttpResponse.success r)]
    | Except.error m =>
      staged.1 ++ [Ev.respond (HttpResponse.error 500 m)]

/-- Matches the FastAPI form pattern `^(?:[A-Za-z]{2}|auto)$` of
`main.py` line 73: exactly two ASCII letters, or the word "auto". -/
def validLanguage (s : String) : Bool :=
  (s.length = 2 &&
    s.toList.all (fun c =>
      ('A' ≤ c && c ≤ 'Z') || ('a' ≤ c && c ≤ 'z'))) ||
  s = "auto"

/-- One incoming multipart request before FastAPI validation: the file field
may be absent, a present file may lack a filename, and language and
timestamp may be omitted (defaulting to "EN" and false per line 73-74). -/
structure RawRequest where
  file : Option (Option (List Char))
  language : Option String
  timestamp : Option Bool

/-- FastAPI's parameter layer in front of the handler: a missing file field
or a language failing the pattern is rejected with a 422 before the handler
body runs; otherwise defaults are filled in and the handler runs. -/
def handleTranscribeRequest (req : RawRequest)
    (readRes writeRes : Except String Unit)
    (engine : InferenceOptions → Except String TranscriptionResult) :
    List Ev :=
  match req.file with
  | none => [Ev.respond (HttpResponse.validationError 422)]
  | some filename =>
    let lang := req.language.getD "EN"
    if validLanguage lang then
      transcribeHandler filename lang (req.timestamp.getD false)
        readRes writeRes engine
    else [Ev.respond (HttpResponse.validationError 422)]

/-- The response of a finished trace: the payload of its final event. -/
def responseOf (t : List Ev) : HttpResponse :=
  match t.getLast? with
  | some (Ev.respond r) => r
  | _ => HttpResponse.validationError 0

/-! Lemmas about the filename split. -/

/-- The split never produces an empty list of pieces. -/
theorem pySplitDot_ne_nil (l : List Char) : pySplitDot l ≠ [] := by
  cases l with
  | nil => simp [pySplitDot]
  | cons c cs =>
    simp only [pySplitDot]
    split
    · simp
    · split
      · simp
      · simp

/-- A dot-free list splits into the single piece that is the whole list. -/
theorem pySplitDot_of_not_mem (l : List Char) (h : '.' ∉ l) :
    pySplitDot l = [l] := by
  induction l with
  | nil => rfl
  | cons c cs ih =>
    have hc : c ≠ '.' := fun hc => h (hc ▸ List.mem_cons_self c cs)
    have hcs : '.' ∉ cs := fun hm => h (List.mem_cons_of_mem c hm)
    simp only [pySplitDot, if_neg hc, ih hcs]

/-- Dropping the head of a two-or-more-element list before taking the last. -/
theorem pyLast_cons_of_ne_nil (x : List Char) (xs : List (List Char))
    (h : xs ≠ []) : pyLast (x :: xs) = pyLast xs := by
  cases xs with
  | nil => exact absurd rfl h
  | cons y ys => rfl

/-- On a dot-free filename the Python idiom `split('.')[-1]` returns the
whole filename. -/
theorem lastSeg_of_not_mem (l : List Char) (h : '.' ∉ l) :
    lastSeg l = l := by
  simp [lastSeg, pySplitDot_of_not_mem l h, pyLast]

/-- A list containing a dot splits into at least two pieces. -/
theorem pySplitDot_two_pieces (l : List Char) (h : '.' ∈ l) :
    ∃ x y t, pySplitDot l = x :: y :: t := by
  induction l with
  | nil => simp at h
  | cons c cs ih =>
    by_cases hc : c = '.'
    · subst hc
      obtain ⟨y, t, ht⟩ : ∃ y t, pySplitDot cs = y :: t := by
        cases hcs : pySplitDot cs with
        | nil => exact absurd hcs (pySplitDot_ne_nil cs)
        | cons y t => exact ⟨y, t, rfl⟩
      exact ⟨[], y, t, by simp [pySplitDot, ht]⟩
    · have hm : '.' ∈ cs := by
        rcases List.mem_cons.mp h with h1 | h1
        · exact absurd h1.symm hc
        · exact h1
      obtain ⟨x, y, t, ht⟩ := ih hm
      exact ⟨c :: x, y, t, by simp [pySplitDot, if_neg hc, ht]⟩

/-- A leading dot does not change the last piece. -/
theorem lastSeg_cons_dot (l : List Char) :
    lastSeg ('.' :: l) = lastSeg l := by
  simp only [lastSeg, pySplitDot, if_pos rfl]
  exact pyLast_cons_of_ne_nil [] (pySplitDot l) (pySplitDot_ne_nil l)

/-- A leading non-dot character does not change the last piece when a dot
occurs later. -/
theorem lastSeg_cons_of_mem (c : Char) (l : List Char) (hc : c ≠ '.')
    (h : '.' ∈ l) : lastSeg (c :: l) = lastSeg l := by
  obtain ⟨x, y, t, ht⟩ := pySplitDot_two_pieces l h
  simp only [lastSeg, pySplitDot, if_neg hc, ht]
  rfl

/-- The last piece of the split contains no dot. -/
theorem lastSeg_not_mem (l : List Char) : '.' ∉ lastSeg l := by
  induction l with
  | nil => simp [lastSeg, pySplitDot, pyLast]
  | cons c cs ih =>
    by_cases hc : c = '.'
    · subst hc
      rw [lastSeg_cons_dot]
      exact ih
    · by_cases hm : '.' ∈ cs
      · rw [lastSeg_cons_of_mem c cs hc hm]
        exact ih
      · have hfree : '.' ∉ c :: cs := by
          intro hx
          rcases List.mem_cons.mp hx with h1 | h1
          · exact hc h1.symm
          · exact hm h1
        rw [lastSeg_of_not_mem _ hfree]
        exact hfree

/-- A filename containing a dot decomposes as a prefix, the last dot, and
the last piece of the split: `split('.')[-1]` is exactly the substring after
the last dot. -/
theorem lastSeg_decomposition (l : List Char) (h : '.' ∈ l) :
    ∃ p, l = p ++ '.' :: lastSeg l := by
  induction l with
  | nil => simp at h
  | cons c cs ih =>
    by_cases hc : c = '.'
    · subst hc
      by_cases hm : '.' ∈ cs
      · obtain ⟨p, hp⟩ := ih hm
        refine ⟨'.' :: p, ?_⟩
        rw [lastSeg_cons_dot]
        simpa using hp
      · refine ⟨[], ?_⟩
        rw [lastSeg_cons_dot, lastSeg_of_not_mem cs hm]
        simp
    · have hm : '.' ∈ cs := by
        rcases List.mem_cons.mp h with h1 | h1
        · exact absurd h1.symm hc
        · exact h1
      obtain ⟨p, hp⟩ := ih hm
      refine ⟨c :: p, ?_⟩
      rw [lastSeg_cons_of_mem c cs hc hm]
      simpa using hp

/-! Path lemmas: the handler trace on each of its finitely many paths. -/

/-- With a missing filename the suffix expression raises before staging and
the except branch answers 500. -/
theorem transcribeHandler_noFilename (lang : String) (ts : Bool)
    (rr wr : Except String Unit)
    (engine : InferenceOptions → Except String TranscriptionResult) :
    transcribeHandler none lang ts rr wr engine =
      [Ev.respond (HttpResponse.error 500 pyNoneSplitMsg)] := rfl

/-- Trace when reading the upload raises. -/
theorem transcribeHandler_readErr (f : List Char) (lang : String) (ts : Bool)
    (m : String) (wr : Except String Unit)
    (engine : InferenceOptions → Except String TranscriptionResult) :
    transcribeHandler (some f) lang ts (Except.error m) wr engine =
      [Ev.stage ('.' :: lastSeg f), Ev.readUpload, Ev.cleanup,
       Ev.respond (HttpResponse.error 500 m)] := rfl

/-- Trace when writing the staged file raises. -/
theorem transcribeHandler_writeErr (f : List Char) (lang : String) (ts : Bool)
    (m : String)
    (engine : InferenceOptions → Except String TranscriptionResult) :
    transcribeHandler (some f) lang ts (Except.ok ()) (Except.error m) engine =
      [Ev.stage ('.' :: lastSeg f), Ev.readUpload, Ev.writeTemp, Ev.cleanup,
       Ev.respond (HttpResponse.error 500 m)] := rfl

/-- Trace when the engine raises. -/
theorem transcribeHandler_engineErr (f : List Char) (lang : String) (ts : Bool)
    (engine : InferenceOptions → Except String TranscriptionResult)
    (m : String) (he : engine (buildExtraArgs lang ts) = Except.error m) :
    transcribeHandler (some f) lang ts (Except.ok ()) (Except.ok ()) engine =
      [Ev.stage ('.' :: lastSeg f), Ev.readUpload, Ev.writeTemp,
       Ev.callEngine (buildExtraArgs lang ts), Ev.cleanup,
       Ev.respond (HttpResponse.error 500 m)] := by
  simp [transcribeHandler, bodySteps, withNamedTemporaryFile, he]

/-- Trace when everything succeeds. -/
theorem transcribeHandler_engineOk (f : List Char) (lang : String) (ts : Bool)
    (engine : InferenceOptions → Except String TranscriptionResult)
    (r : TranscriptionResult)
    (he : engine (buildExtraArgs lang ts) = Except.ok r) :
    transcribeHandler (some f) lang ts (Except.ok ()) (Except.ok ()) engine =
      [Ev.stage ('.' :: lastSeg f), Ev.readUpload, Ev.writeTemp,
       Ev.callEngine (buildExtraArgs lang ts), Ev.cleanup,
       Ev.respond (HttpResponse.success r)] := by
  simp [transcribeHandler, bodySteps, withNamedTemporaryFile, he]

/-- Every staged trace is a staging event, a cleanup-free and staging-free
middle, then cleanup, then the response. -/
theorem transcribeHandler_shape (f : List Char) (lang : String) (ts : Bool)
    (rr wr : Except String Unit)
    (engine : InferenceOptions → Except String TranscriptionResult) :
    ∃ mid resp, transcribeHandler (some f) lang ts rr wr engine =
        Ev.stage ('.' :: lastSeg f) :: mid ++ [Ev.cleanup, Ev.respond resp] ∧
      Ev.cleanup ∉ mid ∧ (∀ s, Ev.stage s ∉ mid) := by
  cases rr with
  | error m =>
    exact ⟨[Ev.readUpload], HttpResponse.error 500 m,
      transcribeHandler_readErr f lang ts m wr engine, by simp, by simp⟩
  | ok u =>
    cases u
    cases wr with
    | error m =>
      exact ⟨[Ev.readUpload, Ev.writeTemp], HttpResponse.error 500 m,
        transcribeHandler_writeErr f lang ts m engine, by simp, by simp⟩
    | ok u2 =>
      cases u2
      cases he : engine (buildExtraArgs lang ts) with
      | error m =>
        exact ⟨[Ev.readUpload, Ev.writeTemp,
                Ev.callEngine (buildExtraArgs lang ts)],
          HttpResponse.error 500 m,
          transcribeHandler_engineErr f lang ts engine m he, by simp, by simp⟩
      | ok r =>
        exact ⟨[Ev.readUpload, Ev.writeTemp,
                Ev.callEngine (buildExtraArgs lang ts)],
          HttpResponse.success r,
          transcribeHandler_engineOk f lang ts engine r he, by simp, by simp⟩

/-- Any options actually handed to the engine are exactly the built
`extra_args`. -/
theorem callEngine_opts (f : List Char) (lang : String) (ts : Bool)
    (rr wr : Except String Unit)
    (engine : InferenceOptions → Except String TranscriptionResult)
    (o : InferenceOptions)
    (h : Ev.callEngine o ∈ transcribeHandler (some f) lang ts rr wr engine) :
    o = buildExtraArgs lang ts := by
  cases rr with
  | error m =>
    rw [transcribeHandler_readErr f lang ts m wr engine] at h
    simp at h
  | ok u =>
    cases u
    cases wr with
    | error m =>
      rw [transcribeHandler_writeErr f lang ts m engine] at h
      simp at h
    | ok u2 =>
      cases u2
      cases he : engine (buildExtraArgs lang ts) with
      | error m =>
        rw [transcribeHandler_engineErr f lang ts engine m he] at h
        simp at h
        exact h
      | ok r =>
        rw [transcribeHandler_engineOk f lang ts engine r he] at h
        simp at h
        exact h

/-- The constant fields of the built options. -/
theorem buildExtraArgs_chunk (lang : String) (ts : Bool) :
    (buildExtraArgs lang ts).chunk_length_s = 30 := by
  simp only [buildExtraArgs]
  split <;> rfl

/-- The constant batch size of the built options. -/
theorem buildExtraArgs_batch (lang : String) (ts : Bool) :
    (buildExtraArgs lang ts).batch_size = 24 := by
  simp only [buildExtraArgs]
  split <;> rfl

/-- The timestamp flag is forwarded unchanged into the built options. -/
theorem buildExtraArgs_rts (lang : String) (ts : Bool) :
    (buildExtraArgs lang ts).return_timestamps = ts := by
  simp only [buildExtraArgs]
  split <;> rfl

/-- The response of a trace ending in a respond event. -/
theorem responseOf_concat (l : List Ev) (r : HttpResponse) :
    responseOf (l ++ [Ev.respond r]) = r := by
  simp [responseOf, List.getLast?_concat]

/-- Every post-validation response is a 500 error or a success. -/
theorem responseOf_transcribeHandler_cases (fn : Option (List Char))
    (lang : String) (ts : Bool) (rr wr : Except String Unit)
    (engine : InferenceOptions → Except String TranscriptionResult) :
    (∃ m, responseOf (transcribeHandler fn lang ts rr wr engine) =
        HttpResponse.error 500 m) ∨
    (∃ r, responseOf (transcribeHandler fn lang ts rr wr engine) =
        HttpResponse.success r) := by
  cases fn with
  | none => exact Or.inl ⟨pyNoneSplitMsg, rfl⟩
  | some f =>
    cases rr with
    | error m =>
      exact Or.inl ⟨m, by rw [transcribeHandler_readErr f lang ts m wr engine]; rfl⟩
    | ok u =>
      cases u
      cases wr with
      | error m =>
        exact Or.inl ⟨m, by rw [transcribeHandler_writeErr f lang ts m engine]; rfl⟩
      | ok u2 =>
        cases u2
        cases he : engine (buildExtraArgs lang ts) with
        | error m =>
          exact Or.inl ⟨m, by
            rw [transcribeHandler_engineErr f lang ts engine m he]; rfl⟩
        | ok r =>
          exact Or.inr ⟨r, by
            rw [transcribeHandler_engineOk f lang ts engine r he]; rfl⟩

/-- A validated request runs the handler body on the filled-in defaults. -/
theorem handle_valid (req : RawRequest) (rr wr : Except String Unit)
    (engine : InferenceOptions → Except String TranscriptionResult)
    (fn : Option (List Char)) (hf : req.file = some fn)
    (hl : validLanguage (req.language.getD "EN") = true) :
    handleTranscribeRequest req rr wr engine =
      transcribeHandler fn (req.language.getD "EN") (req.timestamp.getD false)
        rr wr engine := by
  simp [handleTranscribeRequest, hf, hl]

/-- A request failing validation is answered 422 without running the body. -/
theorem handle_invalid (req : RawRequest) (rr wr : Except String Unit)
    (engine : InferenceOptions → Except String TranscriptionResult)
    (h : req.file = none ∨ validLanguage (req.language.getD "EN") = false) :
    handleTranscribeRequest req rr wr engine =
      [Ev.respond (HttpResponse.validationError 422)] := by
  rcases h with h | h
  · simp [handleTranscribeRequest, h]
  · cases hf : req.file with
    | none => simp [handleTranscribeRequest, hf]
    | some fn => simp [handleTranscribeRequest, hf, h]

/-! Claim theorems. -/

/-- Claim C1: for every request that reaches the staging step, the staged
temporary file is deleted on every exit path of the transcribe operation —
the cleanup event follows the staging event and precedes the response on
the success path, the engine-failure path, and every other exception path
inside the handler. -/
theorem C1_staged_file_always_cleaned (req : RawRequest)
    (rr wr : Except String Unit)
    (engine : InferenceOptions → Except String TranscriptionResult)
    (s : List Char)
    (h : Ev.stage s ∈ handleTranscribeRequest req rr wr engine) :
    ∃ mid resp, handleTranscribeRequest req rr wr engine =
        Ev.stage s :: mid ++ [Ev.cleanup, Ev.respond resp] ∧
      Ev.cleanup ∉ mid ∧ (∀ s2, Ev.stage s2 ∉ mid) := by
  cases hf : req.file with
  | none =>
    rw [handle_invalid req rr wr engine (Or.inl hf)] at h
    simp at h
  | some fn =>
    by_cases hl : validLanguage (req.language.getD "EN") = true
    · rw [handle_valid req rr wr engine fn hf hl] at h ⊢
      cases fn with
      | none =>
        rw [transcribeHandler_noFilename] at h
        simp at h
      | some f =>
        obtain ⟨mid, resp, heq, hc, hs⟩ :=
          transcribeHandler_shape f (req.language.getD "EN")
            (req.timestamp.getD false) rr wr engine
        rw [heq] at h ⊢
        have hss : s = '.' :: lastSeg f := by
          rcases List.mem_cons.mp h with h1 | h1
          · exact Ev.stage.inj h1
          · rcases List.mem_append.mp h1 with h2 | h2
            · exact absurd h2 (hs s)
            · simp at h2
        subst hss
        exact ⟨mid, resp, rfl, hc, hs⟩
    · have hl2 : validLanguage (req.language.getD "EN") = false := by
        simpa using hl
      rw [handle_invalid req rr wr engine (Or.inr hl2)] at h
      simp at h

/-- Witness for C1 at a concrete request, read/write outcomes and engine. -/
theorem C1_witness :
    ∃ mid resp,
      handleTranscribeRequest
          { file := some (some ['a', '.', 'w', 'a', 'v']),
            language := some "EN", timestamp := some false }
          (Except.ok ()) (Except.ok ())
          (fun _ => Except.ok { text := "hi", chunks := none }) =
        Ev.stage ['.', 'w', 'a', 'v'] :: mid ++ [Ev.cleanup, Ev.respond resp] ∧
      Ev.cleanup ∉ mid ∧ (∀ s2, Ev.stage s2 ∉ mid) :=
  C1_staged_file_always_cleaned _ _ _ _ _ (by decide)

/-- Claim C2: when the engine invocation raises, the transcribe operation
answers HTTP 500 with body containing exactly the exception's message; the
exception does not propagate. -/
theorem C2_engine_error_becomes_500 (f : List Char) (lang : String)
    (ts : Bool)
    (engine : InferenceOptions → Except String TranscriptionResult)
    (m : String)
    (he : engine (buildExtraArgs lang ts) = Except.error m) :
    responseOf
        (transcribeHandler (some f) lang ts (Except.ok ()) (Except.ok ())
          engine) =
      HttpResponse.error 500 m := by
  rw [transcribeHandler_engineErr f lang ts engine m he]
  rfl

/-- Witness for C2 with an engine that raises "boom". -/
theorem C2_witness :
    responseOf
        (transcribeHandler (some ['a', '.', 'm', 'p', '3']) "EN" false
          (Except.ok ()) (Except.ok ())
          (fun _ => Except.error "boom")) =
      HttpResponse.error 500 "boom" :=
  C2_engine_error_becomes_500 _ _ _ _ _ rfl

/-- Claim C3: for every validator-accepted language other than "auto", the
options handed to the engine carry a generation directive with task
"transcribe" and the lowercased code wrapped in the special-token
delimiters; for "auto" no directive is present. -/
theorem C3_language_directive (f : List Char) (c : String) (ts : Bool)
    (rr wr : Except String Unit)
    (engine : InferenceOptions → Except String TranscriptionResult)
    (o : InferenceOptions)
    (hv : validLanguage c = true)
    (ho : Ev.callEngine o ∈ transcribeHandler (some f) c ts rr wr engine) :
    (c ≠ "auto" →
      o.generate_kwargs =
        some { task := "transcribe", language := "<|" ++ pyLower c ++ "|>" }) ∧
    (c = "auto" → o.generate_kwargs = none) := by
  have hoe := callEngine_opts f c ts rr wr engine o ho
  subst hoe
  constructor
  · intro hne
    simp [buildExtraArgs, hne]
  · intro heq
    subst heq
    simp [buildExtraArgs]

/-- Witness for C3 at the language "EN". -/
theorem C3_witness :
    ("EN" ≠ "auto" →
      (buildExtraArgs "EN" false).generate_kwargs =
        some { task := "transcribe",
               language := "<|" ++ pyLower "EN" ++ "|>" }) ∧
    ("EN" = "auto" → (buildExtraArgs "EN" false).generate_kwargs = none) :=
  C3_language_directive ['a'] "EN" false (Except.ok ()) (Except.ok ())
    (fun _ => Except.ok { text := "hi", chunks := none })
    (buildExtraArgs "EN" false) (by decide) (by decide)

/-- Claim C4: the options handed to the engine always carry chunk length 30
and batch size 24, and forward the request's timestamp flag unchanged. -/
theorem C4_fixed_engine_options (f : List Char) (lang : String) (ts : Bool)
    (rr wr : Except String Unit)
    (engine : InferenceOptions → Except String TranscriptionResult)
    (o : InferenceOptions)
    (ho : Ev.callEngine o ∈ transcribeHandler (some f) lang ts rr wr engine) :
    o.chunk_length_s = 30 ∧ o.batch_size = 24 ∧ o.return_timestamps = ts := by
  have hoe := callEngine_opts f lang ts rr wr engine o ho
  subst hoe
  exact ⟨buildExtraArgs_chunk lang ts, buildExtraArgs_batch lang ts,
    buildExtraArgs_rts lang ts⟩

/-- Witness for C4 at a concrete successful request. -/
theorem C4_witness :
    (buildExtraArgs "auto" true).chunk_length_s = 30 ∧
    (buildExtraArgs "auto" true).batch_size = 24 ∧
    (buildExtraArgs "auto" true).return_timestamps = true :=
  C4_fixed_engine_options ['a'] "auto" true (Except.ok ()) (Except.ok ())
    (fun _ => Except.ok { text := "hi", chunks := none })
    (buildExtraArgs "auto" true) (by decide)

/-- Claim C5: for every upload whose filename contains a dot, the staged
file's suffix is a dot followed by `split('.')[-1]` of the filename, and
that piece is exactly the substring after the last dot: it is dot-free and
the filename is a prefix, a dot, then that piece. -/
theorem C5_staged_extension_matches (f : List Char) (lang : String)
    (ts : Bool) (rr wr : Except String Unit)
    (engine : InferenceOptions → Except String TranscriptionResult)
    (hdot : '.' ∈ f) :
    Ev.stage ('.' :: lastSeg f) ∈
        transcribeHandler (some f) lang ts rr wr engine ∧
    '.' ∉ lastSeg f ∧ (∃ p, f = p ++ '.' :: lastSeg f) := by
  refine ⟨?_, lastSeg_not_mem f, lastSeg_decomposition f hdot⟩
  obtain ⟨mid, resp, heq, _, _⟩ :=
    transcribeHandler_shape f lang ts rr wr engine
  rw [heq]
  exact List.mem_cons_self _ _

/-- Witness for C5 on the filename "a.tar.gz". -/
theorem C5_witness :
    Ev.stage ('.' :: lastSeg ['a', '.', 't', 'a', 'r', '.', 'g', 'z']) ∈
        transcribeHandler (some ['a', '.', 't', 'a', 'r', '.', 'g', 'z'])
          "EN" false (Except.ok ()) (Except.ok ())
          (fun _ => Except.ok { text := "hi", chunks := none }) ∧
    '.' ∉ lastSeg ['a', '.', 't', 'a', 'r', '.', 'g', 'z'] ∧
    (∃ p, ['a', '.', 't', 'a', 'r', '.', 'g', 'z'] =
      p ++ '.' :: lastSeg ['a', '.', 't', 'a', 'r', '.', 'g', 'z']) :=
  C5_staged_extension_matches _ "EN" false _ _ _ (by decide)

/-- Claim C6: a missing file field or a language matching neither the
two-letter pattern nor "auto" is rejected with a client-error status before
any staging and before any engine call; an omitted language behaves as
"EN" and an omitted timestamp behaves as false. -/
theorem C6_validation_and_defaults (req : RawRequest)
    (rr wr : Except String Unit)
    (engine : InferenceOptions → Except String TranscriptionResult) :
    ((req.file = none ∨ validLanguage (req.language.getD "EN") = false) →
      handleTranscribeRequest req rr wr engine =
          [Ev.respond (HttpResponse.validationError 422)] ∧
        (∀ s, Ev.stage s ∉ handleTranscribeRequest req rr wr engine) ∧
        (∀ o, Ev.callEngine o ∉ handleTranscribeRequest req rr wr engine)) ∧
    (req.language = none →
      handleTranscribeRequest req rr wr engine =
        handleTranscribeRequest { req with language := some "EN" }
          rr wr engine) ∧
    (req.timestamp = none →
      handleTranscribeRequest req rr wr engine =
        handleTranscribeRequest { req with timestamp := some false }
          rr wr engine) := by
  refine ⟨?_, ?_, ?_⟩
  · intro h
    have heq := handle_invalid req rr wr engine h
    refine ⟨heq, ?_, ?_⟩
    · intro s
      rw [heq]
      simp
    · intro o
      rw [heq]
      simp
  · intro h
    simp [handleTranscribeRequest, h]
  · intro h
    simp [handleTranscribeRequest, h]

/-- Witness for C6 at a request with no file and the malformed language
"english". -/
theorem C6_witness :
    handleTranscribeRequest
        { file := none, language := some "english", timestamp := some false }
        (Except.ok ()) (Except.ok ())
        (fun _ => Except.ok { text := "hi", chunks := none }) =
      [Ev.respond (HttpResponse.validationError 422)] :=
  ((C6_validation_and_defaults _ _ _ _).1 (Or.inl rfl)).1

/-- Claim C7: on success the handler returns the engine's result unmodified,
so when the engine honours `return_timestamps = false` by supplying no
chunks the response carries no timing data, and when the engine supplies
timing data it appears in the response as given. -/
theorem C7_result_passthrough (f : List Char) (lang : String) (ts : Bool)
    (engine : InferenceOptions → Except String TranscriptionResult)
    (r : TranscriptionResult)
    (he : engine (buildExtraArgs lang ts) = Except.ok r)
    (hcontract : ∀ o r2, engine o = Except.ok r2 →
      o.return_timestamps = false → r2.chunks = none) :
    responseOf
        (transcribeHandler (some f) lang ts (Except.ok ()) (Except.ok ())
          engine) =
      HttpResponse.success r ∧
    (ts = false → r.chunks = none) := by
  constructor
  · rw [transcribeHandler_engineOk f lang ts engine r he]
    rfl
  · intro hts
    refine hcontract _ r he ?_
    rw [buildExtraArgs_rts lang ts, hts]

/-- Witness for C7 with an engine honouring the timestamp contract. -/
theorem C7_witness :
    responseOf
        (transcribeHandler (some ['a']) "auto" false (Except.ok ())
          (Except.ok ())
          (fun _ => Except.ok { text := "hi", chunks := none })) =
      HttpResponse.success { text := "hi", chunks := none } ∧
    (false = false →
      (({ text := "hi", chunks := none } : TranscriptionResult)).chunks =
        none) :=
  C7_result_passthrough ['a'] "auto" false _ _ rfl
    (fun o r2 h _ => by
      cases h
      rfl)

/-- Claim C8: the engine is constructed exactly once per process lifetime,
as the first lifespan step, choosing flash attention exactly when the
runtime probe answers true and the standard implementation otherwise, and
the engine reference is nulled at shutdown. -/
theorem C8_engine_lifecycle (flash : Bool) :
    (lifespanTrace flash).countP LifeEv.isConstruct = 1 ∧
    (lifespanTrace flash).head? =
      some (LifeEv.constructEngine (buildPipeline flash)) ∧
    pipelineWhileServing flash = some (buildPipeline flash) ∧
    (buildPipeline true).attn = AttnImplementation.flash_attention_2 ∧
    (buildPipeline false).attn = AttnImplementation.sdpa ∧
    pipelineAfterShutdown flash = none := by
  exact ⟨rfl, rfl, rfl, rfl, rfl, rfl⟩

/-- Claim C9: a dotless filename is still staged — its whole name becomes
the suffix after the added dot — and the request is not rejected with a
validation error. -/
theorem C9_dotless_filename_staged (f : List Char) (lang : String)
    (ts : Bool) (rr wr : Except String Unit)
    (engine : InferenceOptions → Except String TranscriptionResult)
    (h : '.' ∉ f) :
    lastSeg f = f ∧
    Ev.stage ('.' :: f) ∈ transcribeHandler (some f) lang ts rr wr engine ∧
    (∀ c, responseOf (transcribeHandler (some f) lang ts rr wr engine) ≠
      HttpResponse.validationError c) := by
  have hl := lastSeg_of_not_mem f h
  refine ⟨hl, ?_, ?_⟩
  · obtain ⟨mid, resp, heq, _, _⟩ :=
      transcribeHandler_shape f lang ts rr wr engine
    rw [heq, hl]
    exact List.mem_cons_self _ _
  · intro c hcontra
    rcases responseOf_transcribeHandler_cases (some f) lang ts rr wr engine
      with ⟨m, hm⟩ | ⟨r, hr⟩
    · rw [hm] at hcontra
      simp at hcontra
    · rw [hr] at hcontra
      simp at hcontra

/-- Witness for C9 on the dotless filename "audio". -/
theorem C9_witness :
    lastSeg ['a', 'u', 'd', 'i', 'o'] = ['a', 'u', 'd', 'i', 'o'] ∧
    Ev.stage ('.' :: ['a', 'u', 'd', 'i', 'o']) ∈
        transcribeHandler (some ['a', 'u', 'd', 'i', 'o']) "EN" false
          (Except.ok ()) (Except.ok ())
          (fun _ => Except.ok { text := "hi", chunks := none }) ∧
    (∀ c, responseOf
        (transcribeHandler (some ['a', 'u', 'd', 'i', 'o']) "EN" false
          (Except.ok ()) (Except.ok ())
          (fun _ => Except.ok { text := "hi", chunks := none })) ≠
      HttpResponse.validationError c) :=
  C9_dotless_filename_staged _ "EN" false _ _ _ (by decide)

/-- Claim C10: after validation every failure inside the handler — a read
failure, a write failure, a missing filename, or an engine failure — is
converted by the single error boundary into a 500 response carrying the
failure's message, and no post-validation outcome is a client-error
status. -/
theorem C10_single_error_boundary (req : RawRequest)
    (rr wr : Except String Unit)
    (engine : InferenceOptions → Except String TranscriptionResult)
    (fn : Option (List Char))
    (hf : req.file = some fn)
    (hl : validLanguage (req.language.getD "EN") = true) :
    ((∃ m, responseOf (handleTranscribeRequest req rr wr engine) =
        HttpResponse.error 500 m) ∨
     (∃ r, responseOf (handleTranscribeRequest req rr wr engine) =
        HttpResponse.success r)) ∧
    (∀ c, responseOf (handleTranscribeRequest req rr wr engine) ≠
      HttpResponse.validationError c) ∧
    (∀ f m, fn = some f → rr = Except.error m →
      responseOf (handleTranscribeRequest req rr wr engine) =
        HttpResponse.error 500 m) ∧
    (∀ f m, fn = some f → rr = Except.ok () → wr = Except.error m →
      responseOf (handleTranscribeRequest req rr wr engine) =
        HttpResponse.error 500 m) ∧
    (fn = none →
      responseOf (handleTranscribeRequest req rr wr engine) =
        HttpResponse.error 500 pyNoneSplitMsg) := by
  rw [handle_valid req rr wr engine fn hf hl]
  refine ⟨responseOf_transcribeHandler_cases fn _ _ rr wr engine,
    ?_, ?_, ?_, ?_⟩
  · intro c hcontra
    rcases responseOf_transcribeHandler_cases fn (req.language.getD "EN")
        (req.timestamp.getD false) rr wr engine with ⟨m, hm⟩ | ⟨r, hr⟩
    · rw [hm] at hcontra
      simp at hcontra
    · rw [hr] at hcontra
      simp at hcontra
  · intro f m hfn hrr
    subst hfn
    subst hrr
    rw [transcribeHandler_readErr]
    rfl
  · intro f m hfn hrr hwr
    subst hfn
    subst hrr
    subst hwr
    rw [transcribeHandler_writeErr]
    rfl
  · intro hfn
    subst hfn
    rfl

/-- Witness for C10 at a request whose upload read raises. -/
theorem C10_witness :
    ((∃ m, responseOf (handleTranscribeRequest
        { file := some (some ['a']), language := some "EN",
          timestamp := some false }
        (Except.error "read failed") (Except.ok ())
        (fun _ => Except.ok { text := "hi", chunks := none })) =
        HttpResponse.error 500 m) ∨
     (∃ r, responseOf (handleTranscribeRequest
        { file := some (some ['a']), language := some "EN",
          timestamp := some false }
        (Except.error "read failed") (Except.ok ())
        (fun _ => Except.ok { text := "hi", chunks := none })) =
        HttpResponse.success r)) ∧
    (∀ c, responseOf (handleTranscribeRequest
        { file := some (some ['a']), language := some "EN",
          timestamp := some false }
        (Except.error "read failed") (Except.ok ())
        (fun _ => Except.ok { text := "hi", chunks := none })) ≠
      HttpResponse.validationError c) ∧
    (∀ f m, some ['a'] = some f → Except.error "read failed" =
        (Except.error m : Except String Unit) →
      responseOf (handleTranscribeRequest
        { file := some (some ['a']), language := some "EN",
          timestamp := some false }
        (Except.error "read failed") (Except.ok ())
        (fun _ => Except.ok { text := "hi", chunks := none })) =
        HttpResponse.error 500 m) ∧
    (∀ f m, some ['a'] = some f →
        (Except.error "read failed" : Except String Unit) = Except.ok () →
        Except.ok () = (Except.error m : Except String Unit) →
      responseOf (handleTranscribeRequest
        { file := some (some ['a']), language := some "EN",
          timestamp := some false }
        (Except.error "read failed") (Except.ok ())
        (fun _ => Except.ok { text := "hi", chunks := none })) =
        HttpResponse.error 500 m) ∧
    (some ['a'] = none →
      responseOf (handleTranscribeRequest
        { file := some (some ['a']), language := some "EN",
          timestamp := some false }
        (Except.error "read failed") (Except.ok ())
        (fun _ => Except.ok { text := "hi", chunks := none })) =
        HttpResponse.error 500 pyNoneSplitMsg) :=
  C10_single_error_boundary _ _ _ _ (some ['a']) rfl (by decide)

end WhisperApi
